import Mathlib

/-!
Verification of the outline-to-mapping extractor of `markdowntoword.go`.

Strings are modelled as `List Char` (one element per rune; the program only
branches on ASCII characters, where Go bytes and runes coincide).  Each Go
library function used by the program is embedded as a Lean function with the
same behaviour, and `parseMarkdown`, `processValue` and the replacement-map
construction of `replaceMustacheTags` are translated line by line.
-/

/-- Model of a Go string: a list of runes. -/
abbrev GoStr := List Char

/-- Whitespace test used by `strings.TrimSpace` (ASCII plus the two Latin-1
space runes; this is the set `unicode.IsSpace` accepts below U+0100). -/
def goIsSpace (c : Char) : Bool :=
  decide (c.toNat = 9) || decide (c.toNat = 10) || decide (c.toNat = 11) ||
  decide (c.toNat = 12) || decide (c.toNat = 13) || decide (c.toNat = 32) ||
  decide (c.toNat = 133) || decide (c.toNat = 160)

/-- `strings.TrimSpace`: drop whitespace from both ends. -/
def goTrimSpace (s : GoStr) : GoStr :=
  ((s.dropWhile goIsSpace).reverse.dropWhile goIsSpace).reverse

/-- `strings.ToLower` on one rune, restricted to ASCII (the program feeds the
result to an ASCII filter, so the behaviour on other letters is irrelevant). -/
def goToLowerChar (c : Char) : Char :=
  if 65 ≤ c.toNat ∧ c.toNat ≤ 90 then Char.ofNat (c.toNat + 32) else c

/-- `strings.ToLower` over a whole string. -/
def goToLower (s : GoStr) : GoStr := s.map goToLowerChar

/-- The rune predicate of the `strings.Map` closure in `parseMarkdown`
(`markdowntoword.go` lines 39-44): keep spaces, underscores, ASCII letters,
ASCII digits and hyphens, delete everything else. -/
def keepRune (c : Char) : Prop :=
  c = ' ' ∨ c = '_' ∨ (97 ≤ c.toNat ∧ c.toNat ≤ 122) ∨ (65 ≤ c.toNat ∧ c.toNat ≤ 90) ∨
  (48 ≤ c.toNat ∧ c.toNat ≤ 57) ∨ c = '-'

instance : DecidablePred keepRune := fun c => by unfold keepRune; infer_instance

/-- The `strings.Map` call of the sanitizer: delete every rune outside the
keep set. -/
def filterKey (s : GoStr) : GoStr := s.filter (fun c => decide (keepRune c))

/-- `strings.HasPrefix`. -/
def goHasPrefix (s p : GoStr) : Bool := p.isPrefixOf s

/-- `strings.TrimPrefix`. -/
def goTrimPrefix (s p : GoStr) : GoStr :=
  if p.isPrefixOf s then s.drop p.length else s

/-- Core of `strings.Replace(s, pat, rep, n)`: replace the first `n`
non-overlapping occurrences of the non-empty pattern, scanning left to
right.  The extra `fuel` argument keeps the recursion structural; the
wrappers below always supply `fuel = s.length`, which is enough fuel to
scan the whole string. -/
def goReplaceAux (pat rep : GoStr) : Nat → Nat → GoStr → GoStr
  | _, _, [] => []
  | _, 0, s => s
  | 0, _ + 1, s => s
  | fuel + 1, n + 1, c :: rest =>
    if pat ≠ [] ∧ pat.isPrefixOf (c :: rest) then
      rep ++ goReplaceAux pat rep fuel n (rest.drop (pat.length - 1))
    else
      c :: goReplaceAux pat rep fuel (n + 1) rest

/-- `strings.Replace(s, pat, rep, n)` for `n ≥ 0`. -/
def goReplace (pat rep : GoStr) (n : Nat) (s : GoStr) : GoStr :=
  goReplaceAux pat rep s.length n s

/-- `strings.ReplaceAll(s, pat, rep)`: replace every non-overlapping
occurrence of the non-empty pattern, scanning left to right (`s.length`
replacements can never be exceeded). -/
def goReplaceAll (pat rep : GoStr) (s : GoStr) : GoStr :=
  goReplaceAux pat rep s.length s.length s

/-- `strings.Split(s, sep)` for a one-rune separator: split on every
occurrence; the empty string yields one empty field. -/
def goSplit (sep : Char) : GoStr → List GoStr
  | [] => [[]]
  | c :: rest =>
    if c = sep then [] :: goSplit sep rest
    else
      match goSplit sep rest with
      | [] => [[c]]
      | h :: t => (c :: h) :: t

/-- `strings.SplitN(s, sep, 2)` for a one-rune separator: split at the first
occurrence only; a string without the separator yields one field. -/
def goSplitN2 (sep : Char) (s : GoStr) : List GoStr :=
  match s.dropWhile (fun c => c != sep) with
  | [] => [s]
  | _ :: rest => [s.takeWhile (fun c => c != sep), rest]

/-- `strings.Join(parts, sep)` for a one-rune separator. -/
def goJoin (sep : Char) (parts : List GoStr) : GoStr :=
  List.intercalate [sep] parts

/-- `processValue` (`markdowntoword.go` lines 142-152): split the value on
newlines; a line whose first byte is a dash or plus has the first occurrence
of that byte (which is that first byte) replaced by the bullet glyph. -/
def processItem (item : GoStr) : GoStr :=
  match item with
  | [] => []
  | c :: rest =>
    if c = '-' ∨ c = '+' then goReplace [c] ['•'] 1 (c :: rest)
    else c :: rest

def processValue (value : GoStr) : GoStr :=
  goJoin '\n' ((goSplit '\n' value).map processItem)

/-- The key computation of the Entry-Heading branch (`markdowntoword.go`
lines 38-48): lower-case, filter, trim, each space to a hyphen, each
underscore to a hyphen, lower-case again. -/
def sanitizeEntryKey (heading : GoStr) : GoStr :=
  goToLower (goReplaceAll ['_'] ['-']
    (goReplaceAll [' '] ['-'] (goTrimSpace (filterKey (goToLower heading)))))

/-- The key computation of the Definition-Entry branch (`markdowntoword.go`
lines 67-73): lower-case, filter, each space and underscore to a hyphen
(no trim and no second lower-case here). -/
def sanitizeDefKey (prev : GoStr) : GoStr :=
  goReplaceAll ['_'] ['-'] (goReplaceAll [' '] ['-'] (filterKey (goToLower prev)))

/-- The Section Prefix computation (`markdowntoword.go` line 94).  The
filtered value assigned on lines 88-93 is dead: line 94 overwrites it with
this unfiltered recomputation from the raw line. -/
def sectionPrefix (line : GoStr) : GoStr :=
  goToLower (goReplaceAll ['_'] ['-']
    (goReplaceAll [' '] ['-'] (goTrimSpace (goTrimPrefix line ['#', '#']))))

/-- The scan state of `parseMarkdown`: the output map under construction and
the four loop variables. -/
structure ScanState where
  data : List (GoStr × GoStr)
  currentPrefix : GoStr
  currentKey : GoStr
  currentValue : GoStr
  previousLine : GoStr
  deriving Repr, DecidableEq

/-- A write to the Go map `data`: overwrite in place when the key exists,
append otherwise. -/
def mapWrite (m : List (GoStr × GoStr)) (k v : GoStr) : List (GoStr × GoStr) :=
  if m.any (fun p => p.1 == k) then
    m.map (fun p => if p.1 = k then (k, v) else p)
  else
    m ++ [(k, v)]

/-- The flush shared by the heading branches and the epilogue
(`if currentKey != "" { data[currentKey] = ... }`). -/
def flushData (st : ScanState) : List (GoStr × GoStr) :=
  if st.currentKey ≠ [] then
    mapWrite st.data st.currentKey (goTrimSpace (processValue st.currentValue))
  else st.data

/-- One iteration of the scan loop of `parseMarkdown` (lines 30-101). -/
def stepLine (st : ScanState) (rawLine : GoStr) : ScanState :=
  let line := goTrimSpace rawLine
  if goHasPrefix line ['#', '#', '#'] then
    let heading := goTrimPrefix line ['#', '#', '#']
    let key0 := sanitizeEntryKey heading
    let key := if st.currentPrefix ≠ [] then st.currentPrefix ++ '-' :: key0 else key0
    { data := flushData st
      currentPrefix := st.currentPrefix
      currentKey := key
      currentValue := []
      previousLine := line }
  else if goHasPrefix line [':'] then
    match goSplitN2 ':' line with
    | [_, part1] =>
      let key0 := sanitizeDefKey st.previousLine
      let key := if st.currentPrefix ≠ [] then st.currentPrefix ++ '-' :: key0 else key0
      { st with data := mapWrite st.data key (goTrimSpace part1), previousLine := line }
    | _ => { st with previousLine := line }
  else if goHasPrefix line ['#', '#'] then
    { data := flushData st
      currentPrefix := sectionPrefix line
      currentKey := []
      currentValue := []
      previousLine := line }
  else if st.currentKey ≠ [] then
    { st with currentValue := st.currentValue ++ line ++ ['\n'], previousLine := line }
  else
    { st with previousLine := line }

/-- The initial scan state of `parseMarkdown`. -/
def initState : ScanState :=
  { data := [], currentPrefix := [], currentKey := [], currentValue := [], previousLine := [] }

/-- `parseMarkdown` on in-memory content: split into lines, run the scan
loop, flush the still-open entry. -/
def parseMarkdown (content : GoStr) : List (GoStr × GoStr) :=
  flushData ((goSplit '\n' content).foldl stepLine initState)

/-- The replacement-map construction of `replaceMustacheTags`: markdown
emphasis delimiters are stripped from each value before it is handed to the
document writer. -/
def cleanValue (v : GoStr) : GoStr :=
  goReplaceAll ['*'] [] (goReplaceAll ['*', '*'] [] v)

def buildReplaceMap (data : List (GoStr × GoStr)) : List (GoStr × GoStr) :=
  data.map (fun kv => (kv.1, cleanValue kv.2))

/-! ### Reference definitions taken from the specification text

These definitions follow the wording of the specification (not the source)
and exist only to be compared with the source-derived definitions above. -/

/-- One character of the kebab-casing step: spaces and underscores become
hyphens, every other character is kept. -/
def sanChar (c : Char) : Char := if c = ' ' ∨ c = '_' then '-' else c

/-- The final step of the reference sanitizer pipeline as the specification
words it: each maximal run of spaces becomes a single hyphen, each
underscore becomes a hyphen.  The Boolean argument records whether the
previous character was a space (so a continuing run emits nothing). -/
def collapseAux : Bool → GoStr → GoStr
  | _, [] => []
  | inRun, c :: rest =>
    if c = ' ' then
      (if inRun then collapseAux true rest else '-' :: collapseAux true rest)
    else (if c = '_' then '-' else c) :: collapseAux false rest

/-- The four-step reference sanitizer pipeline exactly as the specification
words it: case-fold, retain only letters/digits/space/underscore/hyphen,
trim, then one hyphen per run of spaces and one per underscore. -/
def specSanitizeRuns (s : GoStr) : GoStr :=
  collapseAux false (goTrimSpace (filterKey (goToLower s)))

/-- The reference pipeline with the kebab step amended to act per character:
each single space becomes a hyphen (two adjacent spaces give two hyphens),
each underscore becomes a hyphen. -/
def specSanitizeEach (s : GoStr) : GoStr :=
  (goTrimSpace (filterKey (goToLower s))).map sanChar

/-- The bullet-normalization contract as the specification words it: a line
whose first character is a dash or plus has exactly that first character
replaced by the bullet glyph. -/
def specBulletLine (item : GoStr) : GoStr :=
  match item with
  | [] => []
  | c :: rest => if c = '-' ∨ c = '+' then '•' :: rest else c :: rest

/-- The value post-processor as the specification words it: split on
newlines, normalize each line, rejoin with newlines. -/
def specProcessValue (v : GoStr) : GoStr :=
  goJoin '\n' ((goSplit '\n' v).map specBulletLine)

/-- A character of a fully sanitized key: lower-case ASCII letter, digit,
or hyphen. -/
def sanitizedChar (c : Char) : Prop :=
  (97 ≤ c.toNat ∧ c.toNat ≤ 122) ∨ (48 ≤ c.toNat ∧ c.toNat ≤ 57) ∨ c = '-'

instance : DecidablePred sanitizedChar := fun c => by unfold sanitizedChar; infer_instance

/-- A line carrying one of the three recognized markers after trimming. -/
def markerLine (t : GoStr) : Prop :=
  goHasPrefix t ['#', '#', '#'] = true ∨ goHasPrefix t [':'] = true ∨
  goHasPrefix t ['#', '#'] = true

instance : DecidablePred markerLine := fun t => by unfold markerLine; infer_instance

/-! ### Helper lemmas -/

theorem toNat_ofNat_valid {n : Nat} (h : n.isValidChar) : (Char.ofNat n).toNat = n := by
  simp [Char.ofNat, h, Char.toNat, Char.ofNatAux, UInt32.toNat, UInt32.ofNatCore]

/-- The ASCII lower-case map never produces an upper-case letter. -/
theorem goToLowerChar_not_upper (d : Char) :
    ¬ (65 ≤ (goToLowerChar d).toNat ∧ (goToLowerChar d).toNat ≤ 90) := by
  unfold goToLowerChar
  by_cases h : 65 ≤ d.toNat ∧ d.toNat ≤ 90
  · rw [if_pos h]
    have hv : (d.toNat + 32).isValidChar := by
      unfold Nat.isValidChar
      left
      omega
    rw [toNat_ofNat_valid hv]
    omega
  · rw [if_neg h]
    exact h

/-- Replacing by a single-character pattern with enough replacements allowed
acts characterwise. -/
theorem goReplaceAux_single (a b : Char) :
    ∀ (fuel n : Nat) (s : GoStr), s.length ≤ fuel → s.length ≤ n →
      goReplaceAux [a] [b] fuel n s = s.map (fun c => if c = a then b else c) := by
  intro fuel
  induction fuel with
  | zero =>
    intro n s h1 _
    cases s with
    | nil => cases n <;> rfl
    | cons c rest => simp at h1
  | succ fuel ih =>
    intro n s h1 h2
    cases s with
    | nil => cases n <;> rfl
    | cons c rest =>
      cases n with
      | zero => simp at h2
      | succ n =>
        simp only [goReplaceAux, List.isPrefixOf_cons₂, List.isPrefixOf, Bool.and_true,
          ne_eq, List.cons_ne_nil, not_false_iff, true_and, List.length_cons,
          List.length_nil, Nat.add_sub_cancel, List.drop_zero, List.map_cons]
        by_cases hc : a = c
        · subst hc
          simp only [beq_self_eq_true, if_true]
          rw [ih n rest (by simpa using h1) (by simp at h2; omega)]
          simp
        · have hne : ¬ c = a := fun hca => hc hca.symm
          have hbeq : (a == c) = false := by simp [hc]
          simp only [hbeq, Bool.false_eq_true, if_false]
          rw [ih (n + 1) rest (by simpa using h1) (by simp at h2; omega)]
          simp [hne]

/-- Deleting a single-character pattern with enough replacements allowed
filters that character out. -/
theorem goReplaceAux_single_del (a : Char) :
    ∀ (fuel n : Nat) (s : GoStr), s.length ≤ fuel → s.length ≤ n →
      goReplaceAux [a] [] fuel n s = s.filter (fun c => c != a) := by
  intro fuel
  induction fuel with
  | zero =>
    intro n s h1 _
    cases s with
    | nil => cases n <;> rfl
    | cons c rest => simp at h1
  | succ fuel ih =>
    intro n s h1 h2
    cases s with
    | nil => cases n <;> rfl
    | cons c rest =>
      cases n with
      | zero => simp at h2
      | succ n =>
        simp only [goReplaceAux, List.isPrefixOf_cons₂, List.isPrefixOf, Bool.and_true,
          ne_eq, List.cons_ne_nil, not_false_iff, true_and, List.length_cons,
          List.length_nil, Nat.add_sub_cancel, List.drop_zero, List.nil_append]
        by_cases hc : a = c
        · subst hc
          simp only [beq_self_eq_true, if_true]
          rw [ih n rest (by simpa using h1) (by simp at h2; omega)]
          simp [List.filter_cons]
        · have hne : ¬ c = a := fun hca => hc hca.symm
          have hbeq : (a == c) = false := by simp [hc]
          simp only [hbeq, Bool.false_eq_true, if_false]
          rw [ih (n + 1) rest (by simpa using h1) (by simp at h2; omega)]
          simp [List.filter_cons, hne]

/-- `ReplaceAll` with a single-character pattern acts characterwise. -/
theorem goReplaceAll_single (a b : Char) (s : GoStr) :
    goReplaceAll [a] [b] s = s.map (fun c => if c = a then b else c) :=
  goReplaceAux_single a b s.length s.length s le_rfl le_rfl

/-- `ReplaceAll` deleting a single-character pattern filters it out. -/
theorem goReplaceAll_single_del (a : Char) (s : GoStr) :
    goReplaceAll [a] [] s = s.filter (fun c => c != a) :=
  goReplaceAux_single_del a s.length s.length s le_rfl le_rfl

/-- With no replacements left, the scan returns its input unchanged. -/
theorem goReplaceAux_zero (pat rep : GoStr) (fuel : Nat) (s : GoStr) :
    goReplaceAux pat rep fuel 0 s = s := by
  cases fuel <;> cases s <;> rfl

theorem char_toNat_inj {c d : Char} (h : c.toNat = d.toNat) : c = d := by
  have hc := Char.ofNat_toNat c
  rw [← hc, h, Char.ofNat_toNat]

theorem mem_of_mem_goTrimSpace {c : Char} {l : GoStr} (h : c ∈ goTrimSpace l) : c ∈ l := by
  unfold goTrimSpace at h
  rw [List.mem_reverse] at h
  have h2 := (List.dropWhile_sublist goIsSpace).mem h
  rw [List.mem_reverse] at h2
  exact (List.dropWhile_sublist goIsSpace).mem h2

/-- Characters surviving the lower-case/filter/trim prelude are never
upper-case letters. -/
theorem mem_sanitize_source_not_upper {s : GoStr} {c : Char}
    (hc : c ∈ goTrimSpace (filterKey (goToLower s))) :
    ¬ (65 ≤ c.toNat ∧ c.toNat ≤ 90) := by
  have h1 : c ∈ filterKey (goToLower s) := mem_of_mem_goTrimSpace hc
  have h2 : c ∈ goToLower s := (List.mem_filter.mp h1).1
  obtain ⟨d, _, hd⟩ := List.mem_map.mp h2
  rw [← hd]
  exact goToLowerChar_not_upper d

/-- The Entry-Heading sanitizer is one pass of `sanChar` over the trimmed,
filtered, lower-cased heading (the trailing `ToLower` of the source is a
no-op because no upper-case letter survives the first lower-casing). -/
theorem sanitizeEntryKey_eq_map (s : GoStr) :
    sanitizeEntryKey s = (goTrimSpace (filterKey (goToLower s))).map sanChar := by
  unfold sanitizeEntryKey
  rw [goReplaceAll_single, goReplaceAll_single]
  show ((((goTrimSpace (filterKey (goToLower s))).map _).map _).map goToLowerChar) = _
  rw [List.map_map, List.map_map]
  apply List.map_congr_left
  intro c hc
  have hupper := mem_sanitize_source_not_upper hc
  simp only [Function.comp_apply]
  by_cases h1 : c = ' '
  · subst h1; decide
  · by_cases h2 : c = '_'
    · subst h2; decide
    · rw [if_neg h1, if_neg h2]
      unfold sanChar goToLowerChar
      rw [if_neg hupper, if_neg (by rintro (h | h); exacts [h1 h, h2 h])]

theorem sanitizedChar_toNat {c : Char} (h : sanitizedChar c) :
    (97 ≤ c.toNat ∧ c.toNat ≤ 122) ∨ (48 ≤ c.toNat ∧ c.toNat ≤ 57) ∨ c.toNat = 45 := by
  rcases h with h | h | h
  · exact Or.inl h
  · exact Or.inr (Or.inl h)
  · subst h; exact Or.inr (Or.inr rfl)

/-- Every character of a sanitized Entry-Heading key is a lower-case ASCII
letter, a digit, or a hyphen. -/
theorem sanitizeEntryKey_chars (s : GoStr) : ∀ c ∈ sanitizeEntryKey s, sanitizedChar c := by
  intro c hc
  rw [sanitizeEntryKey_eq_map] at hc
  obtain ⟨d, hd, rfl⟩ := List.mem_map.mp hc
  have hupper := mem_sanitize_source_not_upper hd
  have hkeep : keepRune d := by
    have h1 : d ∈ filterKey (goToLower s) := mem_of_mem_goTrimSpace hd
    have h2 := (List.mem_filter.mp h1).2
    exact of_decide_eq_true h2
  unfold sanChar
  by_cases h1 : d = ' ' ∨ d = '_'
  · rw [if_pos h1]
    exact Or.inr (Or.inr rfl)
  · rw [if_neg h1]
    push_neg at h1
    unfold keepRune at hkeep
    unfold sanitizedChar
    rcases hkeep with h | h | h | h | h | h
    · exact absurd h h1.1
    · exact absurd h h1.2
    · exact Or.inl h
    · exact absurd h hupper
    · exact Or.inr (Or.inl h)
    · exact Or.inr (Or.inr h)

theorem sanitizedChar_keep {c : Char} (h : sanitizedChar c) : keepRune c := by
  unfold sanitizedChar at h
  unfold keepRune
  tauto

theorem sanitizedChar_lower {c : Char} (h : sanitizedChar c) : goToLowerChar c = c := by
  have ht := sanitizedChar_toNat h
  unfold goToLowerChar
  rw [if_neg]
  rcases ht with ⟨h1, h2⟩ | ⟨h1, h2⟩ | h1 <;> omega

theorem sanitizedChar_not_space {c : Char} (h : sanitizedChar c) : goIsSpace c = false := by
  have ht := sanitizedChar_toNat h
  unfold goIsSpace
  simp only [Bool.or_eq_false_iff, decide_eq_false_iff_not]
  rcases ht with ⟨h1, h2⟩ | ⟨h1, h2⟩ | h1 <;> omega

theorem sanitizedChar_sanChar {c : Char} (h : sanitizedChar c) : sanChar c = c := by
  have ht := sanitizedChar_toNat h
  have hne : ¬ (c = ' ' ∨ c = '_') := by
    rintro (rfl | rfl)
    · rcases ht with ⟨h1, h2⟩ | ⟨h1, h2⟩ | h1 <;> simp_all
    · rcases ht with ⟨h1, h2⟩ | ⟨h1, h2⟩ | h1 <;> simp_all
  unfold sanChar
  rw [if_neg hne]

theorem dropWhile_eq_self_of {p : Char → Bool} {l : GoStr} (h : ∀ c ∈ l, p c = false) :
    l.dropWhile p = l := by
  cases l with
  | nil => rfl
  | cons c t =>
    rw [List.dropWhile_cons, h c (by simp)]
    simp

theorem goTrimSpace_eq_self {l : GoStr} (h : ∀ c ∈ l, goIsSpace c = false) :
    goTrimSpace l = l := by
  unfold goTrimSpace
  rw [dropWhile_eq_self_of h,
    dropWhile_eq_self_of (fun c hc => h c (List.mem_reverse.mp hc)),
    List.reverse_reverse]

/-- Splitting a colon-prefixed line at the first colon always yields exactly
two parts: the empty label side and everything after the first colon. -/
theorem goSplitN2_colon (rest : GoStr) : goSplitN2 ':' (':' :: rest) = [[], rest] := by
  have hp : ((':' : Char) != ':') = false := by decide
  unfold goSplitN2
  rw [List.dropWhile_cons, hp]
  simp [List.takeWhile_cons, hp]

/-- A line with no recognized marker and no open entry only refreshes the
previous-line memory. -/
theorem stepLine_no_marker {st : ScanState} {l : GoStr}
    (hm : ¬ markerLine (goTrimSpace l)) (hk : st.currentKey = []) :
    stepLine st l = { st with previousLine := goTrimSpace l } := by
  unfold markerLine at hm
  push_neg at hm
  obtain ⟨h1, h2, h3⟩ := hm
  simp only [ne_eq, Bool.not_eq_true] at h1 h2 h3
  simp [stepLine, h1, h2, h3, hk]

/-- Matching the head of the scan in `goReplaceAux`. -/
theorem goReplaceAux_head_match (pat rep : GoStr) (fuel n : Nat) (c : Char) (rest : GoStr)
    (hp : pat ≠ [] ∧ pat.isPrefixOf (c :: rest)) :
    goReplaceAux pat rep (fuel + 1) (n + 1) (c :: rest) =
      rep ++ goReplaceAux pat rep fuel n (rest.drop (pat.length - 1)) := by
  simp only [goReplaceAux]
  rw [if_pos hp]

/-- Marker-free input keeps the scan state empty. -/
theorem foldl_no_marker :
    ∀ (lines : List GoStr) (st : ScanState), st.data = [] → st.currentKey = [] →
      (∀ l ∈ lines, ¬ markerLine (goTrimSpace l)) →
      (lines.foldl stepLine st).data = [] ∧ (lines.foldl stepLine st).currentKey = [] := by
  intro lines
  induction lines with
  | nil => exact fun st h1 h2 _ => ⟨h1, h2⟩
  | cons l ls ih =>
    intro st h1 h2 hm
    rw [List.foldl_cons, stepLine_no_marker (hm l (by simp)) h2]
    exact ih _ h1 h2 (fun x hx => hm x (by simp [hx]))

theorem map_eq_self_of {f : Char → Char} {l : GoStr} (h : ∀ c ∈ l, f c = c) :
    l.map f = l := by
  induction l with
  | nil => rfl
  | cons c t ih =>
    rw [List.map_cons, h c (by simp), ih (fun x hx => h x (by simp [hx]))]

/-! ### Claim theorems -/

/-- C1: the extractor violates the key-sanitization invariant.  On the input
`"## A.B\n### Key\nVal"` the Section Prefix keeps the dot (the filtered
prefix computed by the sanitizer is overwritten by an unfiltered
recomputation), so the written key `"a.b-key"` contains a character that is
neither a letter, a digit, nor a hyphen. -/
theorem parseMarkdown_section_dot_key_unsanitized :
    parseMarkdown ("## A.B\n### Key\nVal".toList) =
      [("a.b-key".toList, "Val".toList)] ∧
    '.' ∈ "a.b-key".toList ∧ ¬ sanitizedChar '.' :=
  ⟨by decide, by decide, by decide⟩

/-- C2 counterexample: a line consisting exactly of the colon marker does
write an entry — `SplitN` on `":"` yields two empty parts, so with previous
line `"Label"` the mapping gains the entry `("label", "")` and is not equal
to the mapping before the line. -/
theorem stepLine_colon_only_writes_entry :
    (stepLine ⟨[], [], [], [], "Label".toList⟩ (":".toList)).data =
      [("label".toList, ([] : GoStr))] ∧
    ([("label".toList, ([] : GoStr))] : List (GoStr × GoStr)) ≠ [] :=
  ⟨by decide, by decide⟩

/-- C2 amended: splitting a colon-prefixed line always yields exactly two
parts, so processing any such line writes exactly one entry — key the
sanitized previous line (prefixed when a Section Prefix is active), value
the trimmed text after the first colon — and leaves the rest of the scan
state unchanged; no error is raised. -/
theorem stepLine_colon_always_two_parts (st : ScanState) (l rest : GoStr)
    (h : goTrimSpace l = ':' :: rest) :
    (stepLine st l).data =
      mapWrite st.data
        (if st.currentPrefix ≠ [] then
          st.currentPrefix ++ '-' :: sanitizeDefKey st.previousLine
         else sanitizeDefKey st.previousLine)
        (goTrimSpace rest) ∧
    (stepLine st l).currentKey = st.currentKey ∧
    (stepLine st l).currentPrefix = st.currentPrefix ∧
    (stepLine st l).currentValue = st.currentValue := by
  have hcc : (('#' : Char) == ':') = false := by decide
  have hno3 : goHasPrefix (':' :: rest) ['#', '#', '#'] = false := by
    simp [goHasPrefix, List.isPrefixOf_cons₂, hcc]
  have hcol : goHasPrefix (':' :: rest) [':'] = true := by
    simp [goHasPrefix, List.isPrefixOf_cons₂, List.isPrefixOf]
  simp only [stepLine, h, hno3, hcol, goSplitN2_colon, Bool.false_eq_true, if_false, if_true]
  exact ⟨trivial, trivial, trivial, trivial⟩

/-- C2 amended, witness: with previous line `"k"` and line `": v"`, one
entry `("k", "v")` is written. -/
theorem stepLine_colon_always_two_parts_witness :
    goTrimSpace (": v".toList) = ':' :: " v".toList ∧
    (stepLine ⟨[], [], [], [], "k".toList⟩ (": v".toList)).data =
      mapWrite [] (sanitizeDefKey ("k".toList)) (goTrimSpace (" v".toList)) :=
  ⟨by decide, by
    have h := (stepLine_colon_always_two_parts ⟨[], [], [], [], "k".toList⟩
      (": v".toList) (" v".toList) (by decide)).1
    simpa using h⟩

/-- C3 counterexample: the sanitizer applied to `"a  b"` yields `"a--b"`
(each space becomes one hyphen) while the reference pipeline of the
specification (one hyphen per run of spaces) yields `"a-b"`. -/
theorem sanitizeEntryKey_ne_runs_pipeline :
    sanitizeEntryKey ("a  b".toList) = "a--b".toList ∧
    specSanitizeRuns ("a  b".toList) = "a-b".toList ∧
    sanitizeEntryKey ("a  b".toList) ≠ specSanitizeRuns ("a  b".toList) :=
  ⟨by decide, by decide, by decide⟩

/-- C3 amended: the sanitizer equals the four-step reference pipeline with
the last step acting per character — case-fold, delete every character
outside the keep set, trim, then one hyphen per single space and one per
underscore (two adjacent spaces give two hyphens). -/
theorem sanitizeEntryKey_eq_each_space_pipeline :
    ∀ s : GoStr, sanitizeEntryKey s = specSanitizeEach s := by
  intro s
  rw [sanitizeEntryKey_eq_map]
  rfl

/-- C4: every value in the mapping handed to the document writer has been
stripped of emphasis delimiters — it contains no asterisk at all, hence
neither a single nor a doubled delimiter. -/
theorem buildReplaceMap_no_emphasis_delims (data : List (GoStr × GoStr))
    (kv : GoStr × GoStr) (h : kv ∈ buildReplaceMap data) :
    '*' ∉ kv.2 ∧ ¬ ['*', '*'] <:+: kv.2 := by
  unfold buildReplaceMap at h
  obtain ⟨p, _, rfl⟩ := List.mem_map.mp h
  have hstar : '*' ∉ cleanValue p.2 := by
    unfold cleanValue
    rw [goReplaceAll_single_del]
    intro hmem
    have hf := (List.mem_filter.mp hmem).2
    simp at hf
  exact ⟨hstar, fun hinf => hstar (hinf.subset (by simp))⟩

/-- C4 witness: the value `"a*b"` is cleaned to `"ab"`, which contains no
delimiter character. -/
theorem buildReplaceMap_no_emphasis_delims_witness :
    (("k".toList, "ab".toList) ∈ buildReplaceMap [("k".toList, "a*b".toList)]) ∧
    '*' ∉ "ab".toList :=
  ⟨by decide,
    (buildReplaceMap_no_emphasis_delims [("k".toList, "a*b".toList)]
      ("k".toList, "ab".toList) (by decide)).1⟩

/-- C5: the Entry-Heading sanitizer is idempotent — sanitizing an already
sanitized key returns it unchanged. -/
theorem sanitizeEntryKey_idempotent :
    ∀ s : GoStr, sanitizeEntryKey (sanitizeEntryKey s) = sanitizeEntryKey s := by
  intro s
  have hch := sanitizeEntryKey_chars s
  have h1 : goToLower (sanitizeEntryKey s) = sanitizeEntryKey s := by
    unfold goToLower
    exact map_eq_self_of (fun c hc => sanitizedChar_lower (hch c hc))
  have h2 : filterKey (sanitizeEntryKey s) = sanitizeEntryKey s := by
    unfold filterKey
    rw [List.filter_eq_self.mpr (fun a ha => decide_eq_true (sanitizedChar_keep (hch a ha)))]
  have h3 : goTrimSpace (sanitizeEntryKey s) = sanitizeEntryKey s :=
    goTrimSpace_eq_self (fun c hc => sanitizedChar_not_space (hch c hc))
  have h4 : (sanitizeEntryKey s).map sanChar = sanitizeEntryKey s :=
    map_eq_self_of (fun c hc => sanitizedChar_sanChar (hch c hc))
  rw [sanitizeEntryKey_eq_map (sanitizeEntryKey s), h1, h2, h3, h4]

/-- C6: the extractor is total — it is a function on all inputs — and both
the empty input and any input whose lines carry no recognized marker
produce the empty mapping. -/
theorem parseMarkdown_total_empty_no_markers :
    parseMarkdown [] = [] ∧
    ∀ s : GoStr, (∀ l ∈ goSplit '\n' s, ¬ markerLine (goTrimSpace l)) →
      parseMarkdown s = [] := by
  constructor
  · decide
  · intro s hm
    unfold parseMarkdown
    obtain ⟨hd, hk⟩ := foldl_no_marker (goSplit '\n' s) initState rfl rfl hm
    unfold flushData
    rw [if_neg (by simp [hk])]
    exact hd

/-- C6 witness: plain text with no markers yields the empty mapping. -/
theorem parseMarkdown_total_empty_no_markers_witness :
    (∀ l ∈ goSplit '\n' ("hello\nworld".toList), ¬ markerLine (goTrimSpace l)) ∧
    parseMarkdown ("hello\nworld".toList) = [] :=
  ⟨by decide, parseMarkdown_total_empty_no_markers.2 ("hello\nworld".toList) (by decide)⟩

/-- C7: a Section-Heading followed by an Entry-Heading and a body line
yields the prefixed key with the trimmed value, the entry still open at
end-of-input being flushed. -/
theorem parseMarkdown_section_entry_example :
    parseMarkdown ("## Section One\n### Field A\nHello\n".toList) =
      [("section-one-field-a".toList, "Hello".toList)] := by
  decide

/-- C8: two consecutive Entry-Headings produce exactly the two entries, and
already after the third line (the second Entry-Heading) the first entry has
been flushed into the mapping while the current key has just become the
second key — flush-before-assign. -/
theorem parseMarkdown_flush_before_assign :
    parseMarkdown ("### First\nValue1\n### Second\nValue2\n".toList) =
      [("first".toList, "Value1".toList), ("second".toList, "Value2".toList)] ∧
    (((goSplit '\n' ("### First\nValue1\n### Second\nValue2\n".toList)).take 3).foldl
        stepLine initState).data = [("first".toList, "Value1".toList)] ∧
    (((goSplit '\n' ("### First\nValue1\n### Second\nValue2\n".toList)).take 3).foldl
        stepLine initState).currentKey = "second".toList :=
  ⟨by decide, by decide, by decide⟩

/-- C9: the value post-processor equals the per-line bullet contract of
the specification — each line starting with a dash or plus has exactly its
first character replaced by the bullet glyph, all other lines pass through —
and the two-line example is normalized accordingly. -/
theorem processValue_bullet_contract :
    (∀ v : GoStr, processValue v = specProcessValue v) ∧
    processValue ("- first\n+ second\n".toList) = "• first\n• second\n".toList := by
  constructor
  · intro v
    unfold processValue specProcessValue
    congr 1
    apply List.map_congr_left
    intro item _
    cases item with
    | nil => rfl
    | cons c rest =>
      simp only [processItem, specBulletLine]
      by_cases h : c = '-' ∨ c = '+'
      · rw [if_pos h, if_pos h]
        unfold goReplace
        rw [List.length_cons,
          goReplaceAux_head_match [c] ['•'] rest.length 0 c rest
            ⟨by simp, by simp [List.isPrefixOf_cons₂, List.isPrefixOf]⟩,
          goReplaceAux_zero]
        simp
      · rw [if_neg h, if_neg h]
  · decide

/-- C10: every trimmed line beginning with four (or more) hash characters
is classified as an Entry-Heading, not a Section-Heading and not
Plain-Text: the Section Prefix is left unchanged, the open entry is
flushed, the accumulator is reset, and the new current key is the
sanitized text after the leading three-hash marker (prefixed when a prefix
is active); the sanitizer deletes any leading surplus hash, and on
`"#### Deep"` the resulting local key is `"deep"` for every scan state. -/
theorem stepLine_four_hashes_entry_heading :
    (∀ (st : ScanState) (l : GoStr),
      ['#', '#', '#', '#'].isPrefixOf (goTrimSpace l) = true →
      (stepLine st l).currentPrefix = st.currentPrefix ∧
      (stepLine st l).data = flushData st ∧
      (stepLine st l).currentValue = [] ∧
      (stepLine st l).currentKey =
        (if st.currentPrefix ≠ [] then
          st.currentPrefix ++ '-' :: sanitizeEntryKey (goTrimPrefix (goTrimSpace l) ['#', '#', '#'])
         else sanitizeEntryKey (goTrimPrefix (goTrimSpace l) ['#', '#', '#']))) ∧
    (∀ t : GoStr, sanitizeEntryKey ('#' :: t) = sanitizeEntryKey t) ∧
    (∀ st : ScanState, (stepLine st ("#### Deep".toList)).currentKey =
      (if st.currentPrefix ≠ [] then st.currentPrefix ++ '-' :: "deep".toList
       else "deep".toList)) := by
  refine ⟨?_, ?_, ?_⟩
  · intro st l h
    have hp4 : ['#', '#', '#', '#'] <+: goTrimSpace l := List.isPrefixOf_iff_prefix.mp h
    have hp3 : ['#', '#', '#'] <+: goTrimSpace l :=
      List.IsPrefix.trans ⟨['#'], rfl⟩ hp4
    have hpre : goHasPrefix (goTrimSpace l) ['#', '#', '#'] = true := by
      unfold goHasPrefix
      exact List.isPrefixOf_iff_prefix.mpr hp3
    simp only [stepLine, hpre, if_true]
    refine ⟨?_, ?_, ?_, ?_⟩ <;> first | rfl | trivial
  · intro t
    have hlow : goToLowerChar '#' = '#' := by decide
    have hkeep : decide (keepRune '#') = false := by decide
    have hfilter : filterKey (goToLower ('#' :: t)) = filterKey (goToLower t) := by
      unfold goToLower filterKey
      rw [List.map_cons, hlow, List.filter_cons, hkeep]
      simp
    unfold sanitizeEntryKey
    rw [hfilter]
  · intro st
    have htrim : goTrimSpace ("#### Deep".toList) = "#### Deep".toList := by decide
    have h3 : goHasPrefix ("#### Deep".toList) ['#', '#', '#'] = true := by decide
    have hdeep : sanitizeEntryKey (goTrimPrefix ("#### Deep".toList) ['#', '#', '#']) =
        "deep".toList := by decide
    simp only [stepLine, htrim, h3, if_true, hdeep]

/-- C10 witness: the line `"#### Deep"` satisfies the four-hash hypothesis
and, from the empty initial state, opens the entry `"deep"`. -/
theorem stepLine_four_hashes_entry_heading_witness :
    (['#', '#', '#', '#'].isPrefixOf (goTrimSpace ("#### Deep".toList)) = true) ∧
    (stepLine initState ("#### Deep".toList)).currentKey = "deep".toList :=
  ⟨by decide, by
    rw [(stepLine_four_hashes_entry_heading.1 initState ("#### Deep".toList)
      (by decide)).2.2.2]
    decide⟩
